import Mathlib

/-!
Verification development for the SavedInTime snapshot tool.

This file gives a shallow embedding of the consistent-snapshot capture
engine (`src/processor.rs`) and the archive writer (`src/archiver.rs`):

* `SystemTime` is modelled as `Nat` (`Time`); comparisons in the source
  (`modified > visit_revision`, `modified < self.visit_revision`) become
  the corresponding `Nat` comparisons.
* Filesystem paths are modelled as component lists (`SPath`), matching
  Rust's component-wise `Path` operations (`starts_with`, `strip_prefix`
  compare whole components, and `..` is an ordinary `ParentDir` component
  that is *not* normalised away).
* Each I/O call the code performs is represented by a field of an
  oracle structure recording that call's result in the trace being
  considered (`FileFs` for one file visit, `LinkFs` for one symlink
  visit, `FsTree` for one directory-tree pass, `Nat → FsTree` for the
  sequence of passes the retry loop performs).
* Rust in-place mutation with `Result<(), bool>` is modelled by state
  passing: a visit returns the updated record together with
  `Option Bool` (`none` = `Ok(())`, `some b` = `Err(b)`), so that
  partial mutation before an error is preserved exactly as in the
  source.
* The zstd encoder is external; its effect is a parameter
  `compress : Int → List Nat → List Nat` applied to the bytes read.
* `HashMap` caches are modelled as association lists whose order is the
  map's iteration order; `insert` of a fresh key appends, `get_mut`
  updates in place.
-/

/-- Wall-clock instant (`std::time::SystemTime`). -/
abbrev Time := Nat

/-- One component of a filesystem path (`std::path::Component`). -/
inductive PComp where
  | root : PComp
  | parentDir : PComp
  | name : String → PComp
deriving DecidableEq, Repr

/-- A path, as its list of components. -/
abbrev SPath := List PComp

/-- `path.starts_with(base)`, written `startsWith base path` —
component-wise prefix test, no normalisation of `..` (as in Rust's
`Path::starts_with`). -/
def startsWith : SPath → SPath → Bool
  | [], _ => true
  | _ :: _, [] => false
  | a :: as, b :: bs => a = b && startsWith as bs

/-- The subset of `std::fs::Metadata` the program consults: the result
of `metadata.modified()` (`none` models `Err`), plus an opaque tag
standing for the remaining stored attributes (size, permissions, ...). -/
structure MetaS where
  modified : Option Time
  attrs : Nat
deriving DecidableEq, Repr

/-- Oracle for the I/O calls of one `WeakEntry::new`/`visit`/`fvisit`
run: result of `path.metadata()`, of `path.exists()`, of `tempfile()`,
of `zstd::Encoder::new`, of `std::fs::read(&path)`, of
`encoder.write_all` and of `encoder.finish()`. -/
structure FileFs where
  metadata : Option MetaS
  pathExists : Bool
  tempfileOk : Bool
  encoderOk : Bool
  readContent : Option (List Nat)
  writeOk : Bool
  finishOk : Bool
deriving Repr

/-- Oracle for the I/O calls of one `SymlinkEntry::new`/`visit` run. -/
structure LinkFs where
  metadata : Option MetaS
  pathExists : Bool
deriving Repr

/-- `WeakEntry` (processor.rs:113-118): cached record of one regular
file. `encoded_data` holds the compressed bytes of the temp file. -/
structure WeakEntryS where
  path : SPath
  metadata : MetaS
  visit_revision : Time
  encoded_data : List Nat
deriving DecidableEq, Repr

/-- `SymlinkEntry` (processor.rs:198-202). -/
structure SymlinkEntryS where
  path : SPath
  metadata : MetaS
  visit_revision : Time
deriving DecidableEq, Repr

/-- `WeakEntry::fvisit` (processor.rs:180-195).  Re-creates the temp
file, then compresses the bytes read from disk into it.  Error payloads
follow the source: every `map_err` closure is `!self.path.exists()`
except the content read, which is `map_err(|_| false)`. -/
def WeakEntryS.fvisit (fs : FileFs) (compress : Int → List Nat → List Nat)
    (compression_level : Int) (e : WeakEntryS) : WeakEntryS × Option Bool :=
  if !fs.tempfileOk then (e, some (!fs.pathExists))
  else
    let e1 := { e with encoded_data := [] }
    if !fs.encoderOk then (e1, some (!fs.pathExists))
    else
      match fs.readContent with
      | none => (e1, some false)
      | some content =>
        if !fs.writeOk then (e1, some (!fs.pathExists))
        else if !fs.finishOk then (e1, some (!fs.pathExists))
        else ({ e with encoded_data := compress compression_level content }, none)

/-- `WeakEntry::new` (processor.rs:121-148). -/
def WeakEntryS.new (path : SPath) (fs : FileFs) (visit_revision : Time)
    (compress : Int → List Nat → List Nat) (compression_level : Int) :
    Except Bool WeakEntryS :=
  match fs.metadata with
  | none => .error (!fs.pathExists)
  | some md =>
    let go : Except Bool WeakEntryS :=
      if !fs.tempfileOk then .error (!fs.pathExists)
      else
        let e0 : WeakEntryS := ⟨path, md, visit_revision, []⟩
        match e0.fvisit fs compress compression_level with
        | (_, some b) => .error b
        | (e1, none) => .ok e1
    match md.modified with
    | some t => if t > visit_revision then .error true else go
    | none => go

/-- `WeakEntry::visit` (processor.rs:150-178).  Note the three early
returns: post-fence modification fails recoverable; `modified`
strictly before the cached revision only advances the stamp;
`modified()` being unavailable returns `Ok` with *no* state change. -/
def WeakEntryS.visit (fs : FileFs) (visit_revision : Time)
    (compress : Int → List Nat → List Nat) (compression_level : Int)
    (e : WeakEntryS) : WeakEntryS × Option Bool :=
  match fs.metadata with
  | none => (e, some (!fs.pathExists))
  | some md =>
    match md.modified with
    | some t =>
      if t > visit_revision then (e, some true)
      else if t < e.visit_revision then
        ({ e with visit_revision := visit_revision }, none)
      else
        let e1 := { e with metadata := md }
        match e1.fvisit fs compress compression_level with
        | (e2, some b) => (e2, some b)
        | (e2, none) => ({ e2 with visit_revision := visit_revision }, none)
    | none => (e, none)

/-- `SymlinkEntry::new` (processor.rs:205-216). -/
def SymlinkEntryS.new (path : SPath) (fs : LinkFs) (visit_revision : Time) :
    Except Bool SymlinkEntryS :=
  match fs.metadata with
  | none => .error (!fs.pathExists)
  | some md => .ok ⟨path, md, visit_revision⟩

/-- `SymlinkEntry::visit` (processor.rs:218-226). -/
def SymlinkEntryS.visit (fs : LinkFs) (visit_revision : Time)
    (e : SymlinkEntryS) : SymlinkEntryS × Option Bool :=
  match fs.metadata with
  | none => (e, some (!fs.pathExists))
  | some md => ({ e with metadata := md, visit_revision := visit_revision }, none)

mutual
/-- One snapshot of the live directory tree, as observed by one
traversal pass.  A `node` records the results of the I/O calls a
`Visitor` performs on that directory: `origin.metadata()`,
`origin.exists()`, and `origin.read_dir()` (`none` = `Err`; the listing
is the sequence `read_dir` yields, in order). -/
inductive FsTree where
  | node : Option MetaS → Bool → Option (List FsEntry) → FsTree

/-- One entry yielded by `read_dir`, pre-classified by the dispatch the
source performs on `entry.path()`: `entryErr` is an `Err` item from the
iterator; `entryDir`/`entryFile`/`entryLink` record which of
`path.is_dir()` / `path.is_file()` / `path.is_symlink()` (checked in
that order, the first two following symlinks) answered true, together
with the sub-oracle for the visit of that child; `entryOther` is a path
answering false to all three. -/
inductive FsEntry where
  | entryErr : FsEntry
  | entryDir : String → FsTree → FsEntry
  | entryFile : String → FileFs → FsEntry
  | entryLink : String → LinkFs → FsEntry
  | entryOther : String → FsEntry
end

/-- `Visitor` (processor.rs:229-236): a cached directory node.  The
three association lists model the three `HashMap`s in the map's
iteration order. -/
inductive VisitorS where
  | mk : SPath → MetaS → Time → List (SPath × WeakEntryS) →
      List (SPath × VisitorS) → List (SPath × SymlinkEntryS) → VisitorS

/-- The `origin` field. -/
def VisitorS.origin : VisitorS → SPath
  | .mk o _ _ _ _ _ => o

/-- The `metadata` field. -/
def VisitorS.metadata : VisitorS → MetaS
  | .mk _ m _ _ _ _ => m

/-- The `revision` field. -/
def VisitorS.revision : VisitorS → Time
  | .mk _ _ r _ _ _ => r

/-- The `entries` field (cached `WeakEntry`s). -/
def VisitorS.entries : VisitorS → List (SPath × WeakEntryS)
  | .mk _ _ _ es _ _ => es

/-- The `sub_visitors` field. -/
def VisitorS.sub_visitors : VisitorS → List (SPath × VisitorS)
  | .mk _ _ _ _ svs _ => svs

/-- The `links` field (cached `SymlinkEntry`s). -/
def VisitorS.links : VisitorS → List (SPath × SymlinkEntryS)
  | .mk _ _ _ _ _ ls => ls

/-- `HashMap::get`/`get_mut` lookup on the association-list model. -/
def lookupA {α : Type} (k : SPath) : List (SPath × α) → Option α
  | [] => none
  | (k', v) :: rest => if k' = k then some v else lookupA k rest

/-- In-place update of the value stored at an existing key. -/
def updateA {α : Type} (k : SPath) (nv : α) : List (SPath × α) → List (SPath × α)
  | [] => []
  | (k', v) :: rest => if k' = k then (k', nv) :: rest else (k', v) :: updateA k nv rest

/-- `Visitor::create` (processor.rs:239-264). -/
def VisitorS.create (path : SPath) (fs : FsTree) (revision : Time) :
    Except Bool VisitorS :=
  match fs with
  | .node mres pexists _ =>
    match mres with
    | none => .error (!pexists)
    | some md =>
      let mkv : VisitorS := .mk path md revision [] [] []
      match md.modified with
      | some t => if t > revision then .error true else .ok mkv
      | none => .ok mkv

mutual
/-- `Visitor::visit` (processor.rs:266-288): re-read own metadata, fail
recoverable on a post-fence modification, store the metadata, then run
`fvisit`.  Note that `self.revision` is *not* assigned anywhere in this
function. -/
def VisitorS.visit (v : VisitorS) (fs : FsTree) (visit_revision : Time)
    (compress : Int → List Nat → List Nat) (compression_level : Int) :
    VisitorS × Option Bool :=
  match fs with
  | .node none pexists _ => (v, some (!pexists))
  | .node (some md) pexists listing =>
    let setMeta : VisitorS :=
      match v with
      | .mk o _ rev es svs ls => .mk o md rev es svs ls
    match md.modified with
    | some t =>
      if t > visit_revision then (v, some true)
      else VisitorS.fvisit setMeta (.node (some md) pexists listing) visit_revision
        compress compression_level
    | none => VisitorS.fvisit setMeta (.node (some md) pexists listing) visit_revision
        compress compression_level
termination_by (sizeOf fs, 2)
decreasing_by all_goals (simp_wf; omega)

/-- `Visitor::fvisit` (processor.rs:290-350): read the listing
(`read_dir`), then process each entry in order. -/
def VisitorS.fvisit (v : VisitorS) (fs : FsTree) (visit_revision : Time)
    (compress : Int → List Nat → List Nat) (compression_level : Int) :
    VisitorS × Option Bool :=
  match fs with
  | .node _ pexists listing =>
    match listing with
    | none => (v, some (!pexists))
    | some cs => VisitorS.loopEntries v cs visit_revision compress compression_level
termination_by (sizeOf fs, 1)
decreasing_by all_goals (simp_wf; omega)

/-- The body of `fvisit`'s `for` loop (processor.rs:295-348), one
listing entry at a time.  A child failure returns immediately
(`?`-propagation), but mutations already applied to the caches are kept,
as they are in the in-place Rust code. -/
def VisitorS.loopEntries (v : VisitorS) (cs : List FsEntry)
    (visit_revision : Time) (compress : Int → List Nat → List Nat)
    (compression_level : Int) : VisitorS × Option Bool :=
  match cs with
  | [] => (v, none)
  | .entryErr :: _ => (v, some true)
  | .entryDir nm subfs :: rest =>
    let p := v.origin ++ [PComp.name nm]
    (match lookupA p v.sub_visitors with
    | some child =>
      let res := VisitorS.visit child subfs visit_revision compress compression_level
      let v' : VisitorS :=
        match v with
        | .mk o m rev es svs ls => .mk o m rev es (updateA p res.1 svs) ls
      (match res.2 with
      | some b => (v', some b)
      | none => VisitorS.loopEntries v' rest visit_revision compress compression_level)
    | none =>
      match VisitorS.create p subfs visit_revision with
      | .error b => (v, some b)
      | .ok child =>
        let res := VisitorS.fvisit child subfs visit_revision compress compression_level
        let v' : VisitorS :=
          match v with
          | .mk o m rev es svs ls => .mk o m rev es (svs ++ [(p, res.1)]) ls
        match res.2 with
        | some b => (v', some b)
        | none => VisitorS.loopEntries v' rest visit_revision compress compression_level)
  | .entryFile nm ffs :: rest =>
    let p := v.origin ++ [PComp.name nm]
    (match lookupA p v.entries with
    | some e =>
      let res := WeakEntryS.visit ffs visit_revision compress compression_level e
      let v' : VisitorS :=
        match v with
        | .mk o m rev es svs ls => .mk o m rev (updateA p res.1 es) svs ls
      (match res.2 with
      | some b => (v', some b)
      | none => VisitorS.loopEntries v' rest visit_revision compress compression_level)
    | none =>
      match WeakEntryS.new p ffs visit_revision compress compression_level with
      | .error b => (v, some b)
      | .ok e =>
        let v' : VisitorS :=
          match v with
          | .mk o m rev es svs ls => .mk o m rev (es ++ [(p, e)]) svs ls
        VisitorS.loopEntries v' rest visit_revision compress compression_level)
  | .entryLink nm lfs :: rest =>
    let p := v.origin ++ [PComp.name nm]
    (match lookupA p v.links with
    | some l =>
      let res := SymlinkEntryS.visit lfs visit_revision l
      let v' : VisitorS :=
        match v with
        | .mk o m rev es svs ls => .mk o m rev es svs (updateA p res.1 ls)
      (match res.2 with
      | some b => (v', some b)
      | none => VisitorS.loopEntries v' rest visit_revision compress compression_level)
    | none =>
      match SymlinkEntryS.new p lfs visit_revision with
      | .error b => (v, some b)
      | .ok l =>
        let v' : VisitorS :=
          match v with
          | .mk o m rev es svs ls => .mk o m rev es svs (ls ++ [(p, l)])
        VisitorS.loopEntries v' rest visit_revision compress compression_level)
  | .entryOther _ :: rest =>
    VisitorS.loopEntries v rest visit_revision compress compression_level
termination_by (sizeOf cs, 0)
decreasing_by all_goals (simp_wf; omega)
end

/-- `EntryType` (processor.rs:15-19); the `File` payload is the
compressed bytes held by the temp file. -/
inductive EntryTypeS where
  | file : List Nat → EntryTypeS
  | symlink : EntryTypeS
  | directory : EntryTypeS
deriving DecidableEq, Repr

/-- `Entry` (processor.rs:9-13): one compiled, archive-ready record. -/
structure EntryS where
  path : SPath
  metadata : MetaS
  entry_type : EntryTypeS
deriving DecidableEq, Repr

/-- `impl From<WeakEntry> for Entry` (processor.rs:83-91). -/
def EntryS.ofWeak (e : WeakEntryS) : EntryS :=
  ⟨e.path, e.metadata, .file e.encoded_data⟩

/-- `impl From<SymlinkEntry> for Entry` (processor.rs:93-101). -/
def EntryS.ofSymlink (l : SymlinkEntryS) : EntryS :=
  ⟨l.path, l.metadata, .symlink⟩

/-- `impl From<&Visitor> for Entry` (processor.rs:103-111). -/
def EntryS.ofVisitor (v : VisitorS) : EntryS :=
  ⟨v.origin, v.metadata, .directory⟩

mutual
/-- `Visitor::compile` (processor.rs:352-388), with the `&mut Vec`
accumulator made explicit: skip the whole node unless its `revision`
equals `time_to_match`; otherwise push the directory entry, then the
file entries whose `visit_revision` matches, then recurse into the
sub-visitors, then push the matching symlink entries. -/
def VisitorS.compile (v : VisitorS) (time_to_match : Time)
    (compiled_entries : List EntryS) : List EntryS :=
  match v with
  | .mk o md rev es svs ls =>
    if rev ≠ time_to_match then compiled_entries
    else
      let acc1 := compiled_entries ++ [EntryS.ofVisitor (.mk o md rev es svs ls)]
      let acc2 := es.foldl
        (fun a pe =>
          if pe.2.visit_revision = time_to_match then a ++ [EntryS.ofWeak pe.2] else a)
        acc1
      let acc3 := VisitorS.compileSubs svs time_to_match acc2
      ls.foldl
        (fun a pl =>
          if pl.2.visit_revision = time_to_match then a ++ [EntryS.ofSymlink pl.2] else a)
        acc3
termination_by (sizeOf v, 0)
decreasing_by all_goals (simp_wf; omega)

/-- The `for (_, visitor) in self.sub_visitors` loop of `compile`
(processor.rs:375-377). -/
def VisitorS.compileSubs (svs : List (SPath × VisitorS)) (time_to_match : Time)
    (compiled_entries : List EntryS) : List EntryS :=
  match svs with
  | [] => compiled_entries
  | (_, s) :: rest =>
    VisitorS.compileSubs rest time_to_match (VisitorS.compile s time_to_match compiled_entries)
termination_by (sizeOf svs, 1)
decreasing_by all_goals (simp_wf; omega)
end

/-- `ProcessError` (processor.rs:21-27). -/
inductive ProcessError where
  | UnrecoverableUnknown : ProcessError
  | PathNotDir : ProcessError
  | MetadataFetchFailed : ProcessError
  | IterationBoundExceeded : ProcessError
deriving DecidableEq, Repr

/-- The retry loop of `process_directory` (processor.rs:57-74).
`fsSeq i` is the tree as observed by visit attempt `i` (0-based) and
`times i` the value `SystemTime::now()` returned when `last_time` was
set before that attempt.  On `Err(recoverable)` the source first checks
`iterations >= max_iterations`, then branches on `recoverable`.  On
success it returns the visitor state and the `last_time` used, which
`process_directory` then compiles against. -/
def pdLoop (fsSeq : Nat → FsTree) (times : Nat → Time)
    (compression_level : Int) (compress : Int → List Nat → List Nat)
    (max_iterations : Int) (v : VisitorS) (attempt : Nat) (iterations : Int) :
    Except ProcessError (VisitorS × Time) :=
  match VisitorS.visit v (fsSeq attempt) (times attempt) compress compression_level with
  | (v', none) => .ok (v', times attempt)
  | (v', some recoverable) =>
    if iterations ≥ max_iterations then .error .IterationBoundExceeded
    else if recoverable then
      pdLoop fsSeq times compression_level compress max_iterations v'
        (attempt + 1) (iterations + 1)
    else .error .UnrecoverableUnknown
termination_by (max_iterations - iterations).toNat
decreasing_by simp_wf; omega

/-- The number of `root.visit` calls the retry loop performs before it
returns, counted along the same branching as `pdLoop`. -/
def pdAttempts (fsSeq : Nat → FsTree) (times : Nat → Time)
    (compression_level : Int) (compress : Int → List Nat → List Nat)
    (max_iterations : Int) (v : VisitorS) (attempt : Nat) (iterations : Int) :
    Nat :=
  match VisitorS.visit v (fsSeq attempt) (times attempt) compress compression_level with
  | (_, none) => 1
  | (v', some recoverable) =>
    if iterations ≥ max_iterations then 1
    else if recoverable then
      1 + pdAttempts fsSeq times compression_level compress max_iterations v'
        (attempt + 1) (iterations + 1)
    else 1
termination_by (max_iterations - iterations).toNat
decreasing_by simp_wf; omega

/-- `process_directory` (processor.rs:42-81).  `isDir` is the result of
the initial `path.is_dir()` check; `Visitor::create` and visit attempt 0
both use `times 0` (the single `SystemTime::now()` taken before the
loop), matching the source. -/
def process_directory (directory_path : SPath) (isDir : Bool)
    (fsSeq : Nat → FsTree) (times : Nat → Time) (max_iterations : Int)
    (compression_level : Int) (compress : Int → List Nat → List Nat) :
    Except ProcessError (List EntryS) :=
  if !isDir then .error .PathNotDir
  else
    match VisitorS.create directory_path (fsSeq 0) (times 0) with
    | .error _ => .error .MetadataFetchFailed
    | .ok v0 =>
      match pdLoop fsSeq times compression_level compress max_iterations v0 0 0 with
      | .error e => .error e
      | .ok (vFinal, last_time) => .ok (VisitorS.compile vFinal last_time [])

/-- The archive records the tar `Builder` receives (`append_dir`,
`append_data`, `append_link`), with the header fields the source sets. -/
inductive TarRecord where
  | fileRec : SPath → MetaS → Nat → List Nat → TarRecord
  | symlinkRec : SPath → SPath → MetaS → TarRecord
  | dirRec : SPath → TarRecord
deriving DecidableEq, Repr

/-- The archiver's abnormal terminations: the `panic!` in
`find_relative_path` for an entry path outside the capture root. -/
inductive TarError where
  | relativePathPanic : TarError
deriving DecidableEq, Repr

/-- `find_relative_path` (archiver.rs:80-99): panic (`none`) unless
`relative` starts with `origin`; otherwise *join `origin` back onto* the
stripped remainder — `origin.join(relative.strip…(origin))`. -/
def find_relative_path (origin relative : SPath) : Option SPath :=
  if startsWith origin relative then
    some (origin ++ relative.drop origin.length)
  else none

/-- The `for entry in entries` loop of `create_tarball`
(archiver.rs:24-75).  `readLink` gives the result of
`entry.path.read_link()` — the *raw stored target*, unresolved.  A
symlink whose raw target does not `starts_with` the origin, or whose
`read_link` fails, is skipped (`continue`). -/
def tarLoop (origin : SPath) (readLink : SPath → Option SPath) :
    List EntryS → List TarRecord → Except TarError (List TarRecord)
  | [], acc => .ok acc
  | e :: rest, acc =>
    match find_relative_path origin e.path with
    | none => .error .relativePathPanic
    | some relative_path =>
      match e.entry_type with
      | .file data =>
        tarLoop origin readLink rest
          (acc ++ [.fileRec relative_path e.metadata data.length data])
      | .symlink =>
        match readLink e.path with
        | none => tarLoop origin readLink rest acc
        | some link =>
          if !startsWith origin link then tarLoop origin readLink rest acc
          else
            match find_relative_path origin link with
            | none => .error .relativePathPanic
            | some link_rel =>
              tarLoop origin readLink rest
                (acc ++ [.symlinkRec relative_path link_rel e.metadata])
      | .directory => tarLoop origin readLink rest (acc ++ [.dirRec relative_path])

/-- `create_tarball` (archiver.rs:9-78), as the list of records received
by the tar builder (underlying container-write I/O errors are out of
scope; the distinguished error is the relative-path panic). -/
def create_tarball (origin : SPath) (entries : List EntryS)
    (readLink : SPath → Option SPath) : Except TarError (List TarRecord) :=
  tarLoop origin readLink entries []

mutual
/-- Spec-side rendering of the Compiler's output (§4.5 of the spec),
written applicatively to compare with the accumulator-style source: for
a node whose stamped revision equals the target — otherwise nothing —
the directory's own entry first, then the file entries whose stamped
revision equals the target, then the sub-directories recursively, then
the matching symlink entries. -/
def compileSpecOrder (v : VisitorS) (t : Time) : List EntryS :=
  match v with
  | .mk o md rev es svs ls =>
    if rev ≠ t then []
    else
      EntryS.ofVisitor (.mk o md rev es svs ls) ::
        (es.filterMap
          (fun pe => if pe.2.visit_revision = t then some (EntryS.ofWeak pe.2) else none)
        ++ compileSpecSubs svs t
        ++ ls.filterMap
          (fun pl => if pl.2.visit_revision = t then some (EntryS.ofSymlink pl.2) else none))
termination_by (sizeOf v, 0)
decreasing_by all_goals (simp_wf; omega)

/-- Spec-side recursion over the sub-directories, in map order. -/
def compileSpecSubs (svs : List (SPath × VisitorS)) (t : Time) : List EntryS :=
  match svs with
  | [] => []
  | (_, s) :: rest => compileSpecOrder s t ++ compileSpecSubs rest t
termination_by (sizeOf svs, 1)
decreasing_by all_goals (simp_wf; omega)
end

/-- Spec-side path resolution (§4.6 of the spec speaks of the *resolved*
link target): interpret the components left to right, a `root` component
restarting at the root and `..` removing the last component. -/
def resolveComps (acc : SPath) : SPath → SPath
  | [] => acc
  | PComp.root :: rest => resolveComps [PComp.root] rest
  | PComp.parentDir :: rest => resolveComps acc.dropLast rest
  | PComp.name s :: rest => resolveComps (acc ++ [PComp.name s]) rest

/-- Spec-side: where a symlink stored in directory `linkDir` with raw
target `target` actually points (an absolute target resolves from the
root, a relative one from the link's directory). -/
def resolveLink (linkDir target : SPath) : SPath :=
  match target with
  | PComp.root :: _ => resolveComps [] target
  | _ => resolveComps linkDir target

/-- Identity stand-in for the zstd encoder, used by concrete scenarios. -/
def cpId : Int → List Nat → List Nat := fun _ d => d

/-- Scenario for C1: pass 0 sees a listing-entry error (recoverable),
pass 1 an empty, unchanged directory (success). -/
def fsSeqC1 : Nat → FsTree := fun i =>
  if i = 0 then .node (some ⟨some 0, 7⟩) true (some [.entryErr])
  else .node (some ⟨some 0, 7⟩) true (some [])

/-- The root visitor `Visitor::create` builds in scenario C1 at time 1. -/
def v0C1 : VisitorS := .mk [PComp.root] ⟨some 0, 7⟩ 1 [] [] []

/-- Scenario for C4 and C5's witness and counterexample: pass 0 fails
recoverably (a listing-entry error); every later pass fails
non-recoverably (`metadata()` fails while the path still exists). -/
def fsSeqC5 : Nat → FsTree := fun i =>
  if i = 0 then .node (some ⟨some 5, 0⟩) true (some [.entryErr])
  else .node none true (some [])

/-- Scenario for C4: every pass fails recoverably (a listing-entry
error on an otherwise readable, unmodified directory). -/
def fsSeqC4 : Nat → FsTree := fun _ =>
  .node (some ⟨some 5, 0⟩) true (some [.entryErr])

/-- The root visitor `Visitor::create` builds in scenarios C4/C5 at
time 10. -/
def v0C4 : VisitorS := .mk [PComp.root] ⟨some 5, 0⟩ 10 [] [] []

/-- A `push`-into-accumulator fold is the accumulator followed by a
`filterMap` of the pushed elements. -/
theorem foldl_push_filterMap {α : Type} (p : α → Prop) [DecidablePred p]
    (g : α → EntryS) :
    ∀ (l : List α) (acc : List EntryS),
      l.foldl (fun a x => if p x then a ++ [g x] else a) acc
        = acc ++ l.filterMap (fun x => if p x then some (g x) else none) := by
  intro l
  induction l with
  | nil => simp
  | cons x xs ih =>
    intro acc
    by_cases h : p x <;> simp [h, ih]

/-- `compile` and `compileSubs` both equal their applicative spec-side
renderings, for every accumulator; by induction on a size bound. -/
theorem compile_eq_spec_bounded : ∀ n : Nat,
    (∀ v : VisitorS, sizeOf v ≤ n → ∀ (t : Time) (acc : List EntryS),
      VisitorS.compile v t acc = acc ++ compileSpecOrder v t) ∧
    (∀ svs : List (SPath × VisitorS), sizeOf svs ≤ n →
      ∀ (t : Time) (acc : List EntryS),
      VisitorS.compileSubs svs t acc = acc ++ compileSpecSubs svs t) := by
  intro n
  induction n with
  | zero =>
    constructor
    · intro v hle
      exfalso
      cases v with
      | mk o md rev es svs ls => simp at hle
    · intro svs hle
      exfalso
      cases svs with
      | nil => simp at hle
      | cons hd tl => simp at hle
  | succ n ih =>
    constructor
    · intro v hle t acc
      cases v with
      | mk o md rev es svs ls =>
        have hsub : sizeOf svs ≤ n := by
          simp at hle
          omega
        rw [VisitorS.compile, compileSpecOrder]
        by_cases h : rev = t
        · simp only [h, ne_eq, not_true_eq_false, if_false, ite_false]
          rw [foldl_push_filterMap (fun pe : SPath × WeakEntryS => pe.2.visit_revision = t)
            (fun pe => EntryS.ofWeak pe.2)]
          rw [ih.2 svs hsub]
          rw [foldl_push_filterMap (fun pl : SPath × SymlinkEntryS => pl.2.visit_revision = t)
            (fun pl => EntryS.ofSymlink pl.2)]
          simp
        · simp [h]
    · intro svs hle t acc
      cases svs with
      | nil => simp [VisitorS.compileSubs, compileSpecSubs]
      | cons hd tl =>
        obtain ⟨p, s⟩ := hd
        have hs : sizeOf s ≤ n := by
          simp at hle
          omega
        have ht : sizeOf tl ≤ n := by
          simp at hle
          omega
        rw [VisitorS.compileSubs, compileSpecSubs]
        rw [ih.1 s hs, ih.2 tl ht]
        simp

/-- C9: `Visitor::compile` produces its entry list in the deterministic
order required by the spec: for each directory node whose revision
matches, first the directory's own entry, then its matching file
entries, then its sub-directories recursively, then its matching symlink
entries — the output equals a pure function (`compileSpecOrder`) of the
converged tree, so two compilations of the same tree yield the same
sequence. -/
theorem c9_compile_deterministic_order :
    ∀ (v : VisitorS) (t : Time) (acc : List EntryS),
      VisitorS.compile v t acc = acc ++ compileSpecOrder v t :=
  fun v t acc => (compile_eq_spec_bounded (sizeOf v)).1 v le_rfl t acc

/-- When every visit attempt fails recoverably, the retry loop started
with `attempt = iterations = k` and bound `N ≥ k` exhausts the bound:
it returns `IterationBoundExceeded` after performing `N - k + 1` visit
calls.  (`d = N - k` drives the induction.) -/
theorem pdLoop_all_recoverable (fsSeq : Nat → FsTree) (times : Nat → Time)
    (lvl : Int) (compress : Int → List Nat → List Nat) (N : Nat)
    (H : ∀ (v : VisitorS) (i : Nat),
      (VisitorS.visit v (fsSeq i) (times i) compress lvl).2 = some true) :
    ∀ (d k : Nat) (v : VisitorS), k + d = N →
      pdLoop fsSeq times lvl compress (N : Int) v k (k : Int)
          = .error .IterationBoundExceeded ∧
        pdAttempts fsSeq times lvl compress (N : Int) v k (k : Int) = d + 1 := by
  intro d
  induction d with
  | zero =>
    intro k v hk
    have hv := H v k
    rw [pdLoop, pdAttempts]
    rcases h : VisitorS.visit v (fsSeq k) (times k) compress lvl with ⟨v', r⟩
    rw [h] at hv
    simp at hv
    subst hv
    have hge : (k : Int) ≥ (N : Int) := by omega
    simp [hge]
  | succ d ih =>
    intro k v hk
    have hv := H v k
    rw [pdLoop, pdAttempts]
    rcases h : VisitorS.visit v (fsSeq k) (times k) compress lvl with ⟨v', r⟩
    rw [h] at hv
    simp at hv
    subst hv
    have hlt : ¬ (k : Int) ≥ (N : Int) := by omega
    have hcast : (k : Int) + 1 = ((k + 1 : Nat) : Int) := by push_cast; ring
    have hrec := ih (k + 1) v' (by omega)
    rw [← hcast] at hrec
    simp [hlt, hrec.1, hrec.2]
    omega

/-- C4: with retry bound `N`, if the initial `Visitor::create` succeeds
and every `root.visit` call fails with a recoverable signal, then
`process_directory` returns the `IterationBoundExceeded` error — no
other result, no divergence — and the loop performs exactly `N + 1`
failed visit attempts (`N` retries after the first attempt). -/
theorem c4_retry_bound (rootPath : SPath) (fsSeq : Nat → FsTree)
    (times : Nat → Time) (lvl : Int) (compress : Int → List Nat → List Nat)
    (N : Nat) (v0 : VisitorS)
    (hcreate : VisitorS.create rootPath (fsSeq 0) (times 0) = .ok v0)
    (H : ∀ (v : VisitorS) (i : Nat),
      (VisitorS.visit v (fsSeq i) (times i) compress lvl).2 = some true) :
    process_directory rootPath true fsSeq times (N : Int) lvl compress
        = .error .IterationBoundExceeded ∧
      pdAttempts fsSeq times lvl compress (N : Int) v0 0 0 = N + 1 := by
  have h0 := pdLoop_all_recoverable fsSeq times lvl compress N H N 0 v0 (by omega)
  rw [process_directory]
  simp only [Bool.not_true, Bool.false_eq_true, if_false, hcreate]
  rw [show ((0 : Nat) : Int) = (0 : Int) by norm_num] at h0
  rw [h0.1]
  exact ⟨rfl, h0.2⟩

/-- Witness for C4 at `N = 2`: a directory whose listing always yields
an entry error (recoverable) forces exactly three failed attempts and
the iteration-bound error. -/
theorem c4_retry_bound_witness :
    process_directory [PComp.root] true fsSeqC4 (fun _ => 10) ((2 : Nat) : Int) 0 cpId
        = .error .IterationBoundExceeded ∧
      pdAttempts fsSeqC4 (fun _ => 10) 0 cpId ((2 : Nat) : Int) v0C4 0 0 = 2 + 1 := by
  refine c4_retry_bound [PComp.root] fsSeqC4 (fun _ => 10) 0 cpId 2 v0C4 ?_ ?_
  · simp [VisitorS.create, fsSeqC4, v0C4]
  · intro v i
    cases v with
    | mk o md rev es svs ls =>
      simp [VisitorS.visit, VisitorS.fvisit, VisitorS.loopEntries, fsSeqC4]

/-- Retry-loop behaviour when attempts `0..K-1` fail recoverably and
attempt `K` fails non-recoverably: the fatal classification is returned
only if the bound has not been reached by then (`K < N`); otherwise the
`iterations >= max_iterations` check fires first and the result is
`IterationBoundExceeded`. -/
theorem pdLoop_nonrecoverable_at (fsSeq : Nat → FsTree) (times : Nat → Time)
    (lvl : Int) (compress : Int → List Nat → List Nat) (N K : Nat)
    (Hrec : ∀ (v : VisitorS) (i : Nat), i < K →
      (VisitorS.visit v (fsSeq i) (times i) compress lvl).2 = some true)
    (Hfat : ∀ (v : VisitorS),
      (VisitorS.visit v (fsSeq K) (times K) compress lvl).2 = some false) :
    ∀ (d k : Nat) (v : VisitorS), k + d = min K N →
      pdLoop fsSeq times lvl compress (N : Int) v k (k : Int)
        = .error (if K < N then .UnrecoverableUnknown else .IterationBoundExceeded) := by
  intro d
  induction d with
  | zero =>
    intro k v hk
    rw [pdLoop]
    rcases h : VisitorS.visit v (fsSeq k) (times k) compress lvl with ⟨v', r⟩
    by_cases hKN : K < N
    · -- k = K ≤ N and the bound is not yet reached: fatal branch
      have hkK : k = K := by omega
      subst hkK
      have hv := Hfat v
      rw [h] at hv
      simp at hv
      subst hv
      have hlt : ¬ (k : Int) ≥ (N : Int) := by omega
      simp [hlt, hKN]
    · -- k = N ≤ K: the bound check fires first, whatever the signal
      have hkN : k = N := by omega
      have hge : (k : Int) ≥ (N : Int) := by omega
      have hv : r = some true ∨ r = some false := by
        by_cases hkK : k < K
        · have := Hrec v k hkK
          rw [h] at this
          simp at this
          exact Or.inl this
        · have hkK' : k = K := by omega
          subst hkK'
          have := Hfat v
          rw [h] at this
          simp at this
          exact Or.inr this
      rcases hv with hv | hv <;> subst hv <;> simp [hge, hKN]
  | succ d ih =>
    intro k v hk
    rw [pdLoop]
    rcases h : VisitorS.visit v (fsSeq k) (times k) compress lvl with ⟨v', r⟩
    have hv := Hrec v k (by omega)
    rw [h] at hv
    simp at hv
    subst hv
    have hlt : ¬ (k : Int) ≥ (N : Int) := by omega
    have hcast : (k : Int) + 1 = ((k + 1 : Nat) : Int) := by push_cast; ring
    have hrec := ih (k + 1) v' (by omega)
    rw [← hcast] at hrec
    simp [hlt, hrec]

/-- C5 (amended): a non-recoverable visit failure aborts the snapshot
with the fatal `UnrecoverableUnknown` classification *provided the
iteration counter is still below the bound* when it happens; if the
failing attempt occurs once the counter has reached the bound, the
`iterations >= max_iterations` check fires first and the run is
reported as `IterationBoundExceeded` even though the failure was
non-recoverable. -/
theorem c5_bound_check_precedes_fatal (rootPath : SPath) (fsSeq : Nat → FsTree)
    (times : Nat → Time) (lvl : Int) (compress : Int → List Nat → List Nat)
    (N K : Nat) (v0 : VisitorS)
    (hcreate : VisitorS.create rootPath (fsSeq 0) (times 0) = .ok v0)
    (Hrec : ∀ (v : VisitorS) (i : Nat), i < K →
      (VisitorS.visit v (fsSeq i) (times i) compress lvl).2 = some true)
    (Hfat : ∀ (v : VisitorS),
      (VisitorS.visit v (fsSeq K) (times K) compress lvl).2 = some false) :
    process_directory rootPath true fsSeq times (N : Int) lvl compress
      = .error (if K < N then .UnrecoverableUnknown else .IterationBoundExceeded) := by
  have h0 := pdLoop_nonrecoverable_at fsSeq times lvl compress N K Hrec Hfat
    (min K N) 0 v0 (by omega)
  rw [process_directory]
  simp only [Bool.not_true, Bool.false_eq_true, if_false, hcreate]
  rw [show ((0 : Nat) : Int) = (0 : Int) by norm_num] at h0
  rw [h0]

/-- Witness for the amended C5 at `K = 1 < N = 2`: attempt 0 fails
recoverably, attempt 1 fails non-recoverably with the counter below the
bound, and the driver surfaces `UnrecoverableUnknown`. -/
theorem c5_bound_check_precedes_fatal_witness :
    process_directory [PComp.root] true fsSeqC5 (fun _ => 10) ((2 : Nat) : Int) 0 cpId
      = .error .UnrecoverableUnknown := by
  have h := c5_bound_check_precedes_fatal [PComp.root] fsSeqC5 (fun _ => 10) 0 cpId
    2 1 v0C4 ?_ ?_ ?_
  · simpa using h
  · simp [VisitorS.create, fsSeqC5, v0C4]
  · intro v i hi
    have hi0 : i = 0 := by omega
    subst hi0
    cases v with
    | mk o md rev es svs ls =>
      simp [VisitorS.visit, VisitorS.fvisit, VisitorS.loopEntries, fsSeqC5]
  · intro v
    cases v with
    | mk o md rev es svs ls =>
      simp [VisitorS.visit, fsSeqC5]

/-- C5 (counterexample to the claim as stated): with bound 1, attempt 0
fails recoverably and attempt 1 fails non-recoverably — the visit of the
then-current visitor state against the pass-1 tree returns the
non-recoverable signal `some false` — yet the driver reports
`IterationBoundExceeded`, not the fatal classification: the two error
classifications are conflated at the bound. -/
theorem c5_counterexample :
    process_directory [PComp.root] true fsSeqC5 (fun _ => 10) 1 0 cpId
        = .error .IterationBoundExceeded ∧
      (VisitorS.visit v0C4 (fsSeqC5 1) 10 cpId 0).2 = some false := by
  constructor
  · simp [process_directory, VisitorS.create, fsSeqC5, pdLoop, VisitorS.visit,
      VisitorS.fvisit, VisitorS.loopEntries]
  · simp [VisitorS.visit, fsSeqC5, v0C4]

/-- C1 (refuting the claim — code bug): `Visitor::visit` succeeds
without stamping the node's revision.  In scenario C1 the root is
created at revision 1, pass 0 fails recoverably, pass 1 succeeds at
revision 2 — yet the root's stamped revision is still 1, so the
Compiler's revision-equality check fails for the root and the
whole converged tree is skipped: `process_directory` returns an *empty*
entry list instead of emitting the root directory. -/
theorem c1_visit_does_not_stamp_revision :
    VisitorS.create [PComp.root] (fsSeqC1 0) 1 = .ok v0C1 ∧
    (VisitorS.visit v0C1 (fsSeqC1 1) 2 cpId 0).2 = none ∧
    (VisitorS.visit v0C1 (fsSeqC1 1) 2 cpId 0).1.revision = 1 ∧
    VisitorS.compile (VisitorS.visit v0C1 (fsSeqC1 1) 2 cpId 0).1 2 [] = [] ∧
    process_directory [PComp.root] true fsSeqC1 (fun i => i + 1) 5 0 cpId = .ok [] := by
  refine ⟨?_, ?_, ?_, ?_, ?_⟩
  · simp [VisitorS.create, fsSeqC1, v0C1]
  · simp [VisitorS.visit, VisitorS.fvisit, VisitorS.loopEntries, fsSeqC1, v0C1]
  · simp [VisitorS.visit, VisitorS.fvisit, VisitorS.loopEntries, fsSeqC1, v0C1,
      VisitorS.revision]
  · simp [VisitorS.visit, VisitorS.fvisit, VisitorS.loopEntries, VisitorS.compile,
      fsSeqC1, v0C1, VisitorS.revision]
  · simp [process_directory, VisitorS.create, fsSeqC1, pdLoop, VisitorS.visit,
      VisitorS.fvisit, VisitorS.loopEntries, VisitorS.compile, cpId, VisitorS.revision]

/-- C2 (refuting the claim — code bug): `find_relative_path` joins the
origin back onto the stripped remainder, so the path stored in the
container is the *full* entry path, not the path relative to the capture
root: for origin `/r` and directory entry `/r/d` the emitted directory
record carries `/r/d`, which differs from the stripped path `d`. -/
theorem c2_path_not_relative :
    find_relative_path [PComp.root, PComp.name "r"]
        [PComp.root, PComp.name "r", PComp.name "d"]
      = some [PComp.root, PComp.name "r", PComp.name "d"] ∧
    ([PComp.root, PComp.name "r", PComp.name "d"] : SPath) ≠ [PComp.name "d"] ∧
    create_tarball [PComp.root, PComp.name "r"]
        [⟨[PComp.root, PComp.name "r", PComp.name "d"], ⟨some 0, 0⟩, .directory⟩]
        (fun _ => none)
      = .ok [.dirRec [PComp.root, PComp.name "r", PComp.name "d"]] := by
  refine ⟨rfl, by simp, rfl⟩

/-- C3 (refuting the claim — code bug): for the sample tree with the
internal symlink `link -> a.txt`, `read_link` yields the raw relative
target `a.txt`, which does not `starts_with` the absolute capture root,
so `create_tarball` silently drops the symlink: the archive holds the
directory and file records but *no* symlink record at all. -/
theorem c3_internal_symlink_missing :
    create_tarball [PComp.root, PComp.name "r"]
        [⟨[PComp.root, PComp.name "r"], ⟨some 0, 0⟩, .directory⟩,
         ⟨[PComp.root, PComp.name "r", PComp.name "a.txt"], ⟨some 0, 1⟩, .file [104]⟩,
         ⟨[PComp.root, PComp.name "r", PComp.name "dir"], ⟨some 0, 2⟩, .directory⟩,
         ⟨[PComp.root, PComp.name "r", PComp.name "dir", PComp.name "b.txt"],
           ⟨some 0, 3⟩, .file [119]⟩,
         ⟨[PComp.root, PComp.name "r", PComp.name "link"], ⟨some 0, 4⟩, .symlink⟩]
        (fun p => if p = [PComp.root, PComp.name "r", PComp.name "link"]
                  then some [PComp.name "a.txt"] else none)
      = .ok [.dirRec [PComp.root, PComp.name "r"],
             .fileRec [PComp.root, PComp.name "r", PComp.name "a.txt"] ⟨some 0, 1⟩ 1 [104],
             .dirRec [PComp.root, PComp.name "r", PComp.name "dir"],
             .fileRec [PComp.root, PComp.name "r", PComp.name "dir", PComp.name "b.txt"]
               ⟨some 0, 3⟩ 1 [119]] ∧
    startsWith [PComp.root, PComp.name "r"] [PComp.name "a.txt"] = false := by
  exact ⟨rfl, rfl⟩

/-- C6 (refuting the claim — code bug): a content-read failure during
`WeakEntry::visit` is classified by `map_err(|_| false)`, i.e. always
non-recoverable — here the path no longer exists (`pathExists = false`,
the file was deleted between the metadata fetch and `fs::read`), yet the
visit returns the non-recoverable signal `some false` instead of the
recoverable `some true` the absence-policy demands. -/
theorem c6_deleted_file_nonrecoverable :
    (WeakEntryS.visit ⟨some ⟨some 3, 0⟩, false, true, true, none, true, true⟩ 5 cpId 0
        ⟨[PComp.root, PComp.name "f"], ⟨some 1, 1⟩, 3, [9, 9]⟩)
      = (⟨[PComp.root, PComp.name "f"], ⟨some 3, 0⟩, 3, []⟩, some false) ∧
    (⟨some ⟨some 3, 0⟩, false, true, true, none, true, true⟩ : FileFs).pathExists = false := by
  exact ⟨rfl, rfl⟩

/-- C7 (amended): if additionally the file's modification time is not
after the target revision — which always holds when the target is no
earlier than the record's previous revision — then a modification time
strictly before the record's previously confirmed revision makes
`visit` succeed with *only* the stamped revision changed: the stored
metadata and compressed bytes are untouched, and the result does not
depend on the content-read or encoder oracle fields at all. -/
theorem c7_memo_hit_frame (fs : FileFs) (md : MetaS) (t R : Time)
    (compress : Int → List Nat → List Nat) (lvl : Int) (e : WeakEntryS)
    (h1 : fs.metadata = some md) (h2 : md.modified = some t)
    (h3 : ¬ t > R) (h4 : t < e.visit_revision) :
    WeakEntryS.visit fs R compress lvl e = ({ e with visit_revision := R }, none) := by
  simp [WeakEntryS.visit, h1, h2, h3, h4]

/-- Witness for the amended C7: modification time 2, record revision 5,
target 3; the content-read oracle is `none` (a read would fail), yet the
memo path succeeds and only the stamp changes. -/
theorem c7_memo_hit_frame_witness :
    WeakEntryS.visit ⟨some ⟨some 2, 0⟩, true, true, true, none, true, true⟩ 3 cpId 0
        ⟨[PComp.name "f"], ⟨some 9, 9⟩, 5, [1, 2]⟩
      = (⟨[PComp.name "f"], ⟨some 9, 9⟩, 3, [1, 2]⟩, none) :=
  c7_memo_hit_frame ⟨some ⟨some 2, 0⟩, true, true, true, none, true, true⟩
    ⟨some 2, 0⟩ 2 3 cpId 0 ⟨[PComp.name "f"], ⟨some 9, 9⟩, 5, [1, 2]⟩
    rfl rfl (by decide) (by decide)

/-- C7 (counterexample to the claim as stated): the claim quantifies
over *every* target revision R; with modification time 5 strictly before
the record's previous revision 10 but a target R = 3 earlier than the
modification time, `visit` fails recoverably (`modified > visit_revision`
fires first) instead of succeeding. -/
theorem c7_counterexample :
    WeakEntryS.visit ⟨some ⟨some 5, 0⟩, true, true, true, some [9], true, true⟩ 3 cpId 0
        ⟨[PComp.root, PComp.name "f"], ⟨some 1, 1⟩, 10, [3]⟩
      = (⟨[PComp.root, PComp.name "f"], ⟨some 1, 1⟩, 10, [3]⟩, some true) := rfl

/-- C8 (amended): a symlink entry whose *raw, unresolved* stored target
does not `starts_with` the capture root is dropped — no record is
written for it — and the writer continues with the remaining entries;
targets that do start with the root are emitted whether or not they
resolve inside it. -/
theorem c8_raw_target_outside_skipped (origin : SPath)
    (readLink : SPath → Option SPath) (e : EntryS) (rest : List EntryS)
    (acc : List TarRecord) (link : SPath)
    (htype : e.entry_type = .symlink)
    (hpath : startsWith origin e.path = true)
    (hread : readLink e.path = some link)
    (hout : startsWith origin link = false) :
    tarLoop origin readLink (e :: rest) acc = tarLoop origin readLink rest acc := by
  simp [tarLoop, find_relative_path, hpath, htype, hread, hout]

/-- Witness for the amended C8: the relative raw target `a.txt` fails
the `starts_with` test against root `/r`, so the entry is skipped and
the loop continues with the (empty) remainder. -/
theorem c8_raw_target_outside_skipped_witness :
    tarLoop [PComp.root, PComp.name "r"]
        (fun _ => some [PComp.name "a.txt"])
        [⟨[PComp.root, PComp.name "r", PComp.name "link"], ⟨some 0, 4⟩, .symlink⟩] []
      = tarLoop [PComp.root, PComp.name "r"] (fun _ => some [PComp.name "a.txt"]) [] [] :=
  c8_raw_target_outside_skipped [PComp.root, PComp.name "r"]
    (fun _ => some [PComp.name "a.txt"])
    ⟨[PComp.root, PComp.name "r", PComp.name "link"], ⟨some 0, 4⟩, .symlink⟩ [] []
    [PComp.name "a.txt"] rfl rfl rfl rfl

/-- C8 (counterexample to the claim as stated): a symlink whose raw
target `/r/../x` component-wise starts with the root `/r` *is* emitted
into the container, although the target resolves to `/x`, outside the
capture root — the code never resolves the target before the check. -/
theorem c8_counterexample :
    create_tarball [PComp.root, PComp.name "r"]
        [⟨[PComp.root, PComp.name "r", PComp.name "link"], ⟨some 0, 4⟩, .symlink⟩]
        (fun _ => some [PComp.root, PComp.name "r", PComp.parentDir, PComp.name "x"])
      = .ok [.symlinkRec [PComp.root, PComp.name "r", PComp.name "link"]
          [PComp.root, PComp.name "r", PComp.parentDir, PComp.name "x"] ⟨some 0, 4⟩] ∧
    startsWith [PComp.root, PComp.name "r"]
        (resolveLink [PComp.root, PComp.name "r"]
          [PComp.root, PComp.name "r", PComp.parentDir, PComp.name "x"]) = false := by
  exact ⟨rfl, rfl⟩

/-- C10: when a cached record's revisit reads metadata successfully but
`modified()` is unavailable, `visit` returns success with the record
*entirely* unchanged — the stamped revision is not advanced — and the
Compiler then silently omits the file from the output of any node whose
target revision differs from the record's stale stamp (only the node's
own directory entry is emitted). -/
theorem c10_unavailable_mtime_silent_drop (fs : FileFs) (md : MetaS) (R : Time)
    (compress : Int → List Nat → List Nat) (lvl : Int) (e : WeakEntryS)
    (h1 : fs.metadata = some md) (h2 : md.modified = none) :
    WeakEntryS.visit fs R compress lvl e = (e, none) ∧
    ∀ (t : Time) (o : SPath) (m : MetaS) (acc : List EntryS),
      e.visit_revision ≠ t →
      VisitorS.compile (.mk o m t [(e.path, e)] [] []) t acc
        = acc ++ [EntryS.ofVisitor (.mk o m t [(e.path, e)] [] [])] := by
  constructor
  · simp [WeakEntryS.visit, h1, h2]
  · intro t o m acc hne
    simp [VisitorS.compile, VisitorS.compileSubs, hne]

/-- Witness for C10: metadata readable but `modified()` failing leaves
the record stamped 3; a tree converged at revision 9 then compiles to
just the directory entry, dropping the file. -/
theorem c10_unavailable_mtime_silent_drop_witness :
    WeakEntryS.visit ⟨some ⟨none, 0⟩, true, true, true, some [9], true, true⟩ 5 cpId 0
        ⟨[PComp.name "f"], ⟨some 1, 1⟩, 3, [7]⟩
      = (⟨[PComp.name "f"], ⟨some 1, 1⟩, 3, [7]⟩, none) ∧
    VisitorS.compile
        (.mk [PComp.root] ⟨some 1, 2⟩ 9 [([PComp.name "f"], ⟨[PComp.name "f"], ⟨some 1, 1⟩, 3, [7]⟩)] [] []) 9 []
      = [EntryS.ofVisitor
          (.mk [PComp.root] ⟨some 1, 2⟩ 9 [([PComp.name "f"], ⟨[PComp.name "f"], ⟨some 1, 1⟩, 3, [7]⟩)] [] [])] := by
  have h := c10_unavailable_mtime_silent_drop
    ⟨some ⟨none, 0⟩, true, true, true, some [9], true, true⟩ ⟨none, 0⟩ 5 cpId 0
    ⟨[PComp.name "f"], ⟨some 1, 1⟩, 3, [7]⟩ rfl rfl
  exact ⟨h.1, by simpa using h.2 9 [PComp.root] ⟨some 1, 2⟩ [] (by decide)⟩
